import Mathlib

/-
Verification of the Perun frame-relay pipeline against its specification.

Bytes are modelled as `Nat` values (with `< 256` bounds where the reasoning
needs them), byte buffers as `List Nat`, and Rust's fallible functions as
`Except`-valued Lean functions.  Each definition is a direct translation of
the Rust function named in its doc comment.
-/

namespace Perun

/-! ## Big-endian integer codecs (u16/u32/i16 to_be_bytes / from_be_bytes) -/

/-- Rust `u16::to_be_bytes`, as a two-byte list. -/
def u16ToBeBytes (v : Nat) : List Nat := [v / 256 % 256, v % 256]

/-- Rust `u16::from_be_bytes [hi, lo]`. -/
def u16FromBeBytes (hi lo : Nat) : Nat := hi * 256 + lo

/-- Rust `u32::to_be_bytes`, as a four-byte list. -/
def u32ToBeBytes (v : Nat) : List Nat :=
  [v / 2 ^ 24 % 256, v / 2 ^ 16 % 256, v / 2 ^ 8 % 256, v % 256]

/-- Rust `u32::from_be_bytes [b0, b1, b2, b3]`. -/
def u32FromBeBytes (b0 b1 b2 b3 : Nat) : Nat :=
  ((b0 * 256 + b1) * 256 + b2) * 256 + b3

/-- Rust `i16::to_be_bytes`: the two bytes of the 16-bit two's-complement pattern. -/
def i16ToBeBytes (s : Int) : List Nat :=
  let n := (s % 65536).toNat
  [n / 256 % 256, n % 256]

/-- Rust `i16::from_be_bytes [hi, lo]`. -/
def i16FromBeBytes (hi lo : Nat) : Int :=
  let n := hi * 256 + lo
  if n < 32768 then (n : Int) else (n : Int) - 65536

theorem u16_roundtrip (v : Nat) (h : v < 2 ^ 16) :
    u16FromBeBytes (v / 256 % 256) (v % 256) = v := by
  simp only [u16FromBeBytes]
  omega

theorem u32_roundtrip (v : Nat) (h : v < 2 ^ 32) :
    u32FromBeBytes (v / 2 ^ 24 % 256) (v / 2 ^ 16 % 256) (v / 2 ^ 8 % 256) (v % 256) = v := by
  simp only [u32FromBeBytes]
  omega

theorem i16_roundtrip (s : Int) (hlo : -32768 ≤ s) (hhi : s < 32768) :
    i16FromBeBytes ((s % 65536).toNat / 256 % 256) ((s % 65536).toNat % 256) = s := by
  simp only [i16FromBeBytes]
  omega

/-! ## Packet types and protocol errors (server/src/protocol/packets.rs) -/

/-- PacketType enum from server/src/protocol/packets.rs. -/
inductive PacketType
  | videoFrame
  | audioChunk
  | inputEvent
  | config
  | debugInfo
deriving DecidableEq, Repr

/-- Rust `PacketType as u8` discriminants. -/
def PacketType.toByte : PacketType → Nat
  | .videoFrame => 0x01
  | .audioChunk => 0x02
  | .inputEvent => 0x03
  | .config => 0x04
  | .debugInfo => 0x05

/-- ProtocolError enum from server/src/protocol/packets.rs
(`have` renamed to `got` because `have` is a Lean keyword). -/
inductive ProtocolError
  | invalidPacketType (b : Nat)
  | bufferTooSmall (needed got : Nat)
  | invalidData
deriving DecidableEq, Repr

/-- Rust `TryFrom<u8> for PacketType`. -/
def PacketType.tryFrom (value : Nat) : Except ProtocolError PacketType :=
  if value = 0x01 then .ok .videoFrame
  else if value = 0x02 then .ok .audioChunk
  else if value = 0x03 then .ok .inputEvent
  else if value = 0x04 then .ok .config
  else if value = 0x05 then .ok .debugInfo
  else .error (.invalidPacketType value)

theorem tryFrom_toByte (t : PacketType) : PacketType.tryFrom t.toByte = .ok t := by
  cases t <;> rfl

/-! ## PacketHeader -/

/-- PacketHeader struct from server/src/protocol/packets.rs
(type:1, flags:1, sequence:2, length:4; 8 bytes, big-endian). -/
structure PacketHeader where
  packetType : PacketType
  flags : Nat
  sequence : Nat
  length : Nat
deriving DecidableEq, Repr

/-- Field ranges implied by the Rust types u8/u16/u32. -/
def PacketHeader.wf (h : PacketHeader) : Prop :=
  h.flags < 2 ^ 8 ∧ h.sequence < 2 ^ 16 ∧ h.length < 2 ^ 32

instance (h : PacketHeader) : Decidable h.wf := by unfold PacketHeader.wf; infer_instance

/-- PacketHeader::serialize. -/
def PacketHeader.serialize (h : PacketHeader) : List Nat :=
  h.packetType.toByte :: h.flags :: (u16ToBeBytes h.sequence ++ u32ToBeBytes h.length)

/-- PacketHeader::deserialize. -/
def PacketHeader.deserialize (data : List Nat) : Except ProtocolError PacketHeader :=
  if data.length < 8 then .error (.bufferTooSmall 8 data.length)
  else
    match PacketType.tryFrom (data.getD 0 0) with
    | .error e => .error e
    | .ok pt =>
      .ok { packetType := pt
            flags := data.getD 1 0
            sequence := u16FromBeBytes (data.getD 2 0) (data.getD 3 0)
            length := u32FromBeBytes (data.getD 4 0) (data.getD 5 0) (data.getD 6 0)
                        (data.getD 7 0) }

theorem packetHeader_roundtrip (h : PacketHeader) (hw : h.wf) :
    PacketHeader.deserialize h.serialize = .ok h := by
  obtain ⟨hf, hs, hl⟩ := hw
  simp only [PacketHeader.serialize, PacketHeader.deserialize, u16ToBeBytes, u32ToBeBytes,
    List.length_cons, List.length_append, List.length]
  rw [if_neg (by simp)]
  simp only [List.getD, List.get?, List.getElem?_cons_zero, List.getElem?_cons_succ,
    Option.getD_some]
  rw [tryFrom_toByte]
  simp only [List.cons_append, List.nil_append, List.getElem?_cons_zero,
    List.getElem?_cons_succ, Option.getD_some]
  congr 1
  have e2 := u16_roundtrip h.sequence hs
  have e4 := u32_roundtrip h.length hl
  cases h with
  | mk pt fl sq ln => simp_all

/-! ## VideoFramePacket (server/src/protocol/packets.rs) -/

/-- VideoFramePacket struct from server/src/protocol/packets.rs. -/
structure VideoFramePacket where
  width : Nat
  height : Nat
  isDelta : Bool
  data : List Nat
deriving DecidableEq, Repr

/-- Field ranges implied by the Rust types (width/height are u16). -/
def VideoFramePacket.wf (p : VideoFramePacket) : Prop :=
  p.width < 2 ^ 16 ∧ p.height < 2 ^ 16

instance (p : VideoFramePacket) : Decidable p.wf := by
  unfold VideoFramePacket.wf; infer_instance

/-- VideoFramePacket::serialize (payload bytes, excluding header). -/
def VideoFramePacket.serialize (p : VideoFramePacket) : List Nat :=
  u16ToBeBytes p.width ++ u16ToBeBytes p.height ++ p.data

/-- VideoFramePacket::deserialize; `is_delta` is read from the separate `flags` byte
(`(flags & FLAG_DELTA) != 0` with FLAG_DELTA = 0x01). -/
def VideoFramePacket.deserialize (data : List Nat) (flags : Nat) :
    Except ProtocolError VideoFramePacket :=
  if data.length < 4 then .error (.bufferTooSmall 4 data.length)
  else
    .ok { width := u16FromBeBytes (data.getD 0 0) (data.getD 1 0)
          height := u16FromBeBytes (data.getD 2 0) (data.getD 3 0)
          isDelta := (flags &&& 0x01) != 0
          data := data.drop 4 }

theorem videoFrame_roundtrip (p : VideoFramePacket) (hw : p.wf) (flags : Nat)
    (hf : ((flags &&& 0x01) != 0) = p.isDelta) :
    VideoFramePacket.deserialize p.serialize flags = .ok p := by
  obtain ⟨hwdt, hhgt⟩ := hw
  simp only [VideoFramePacket.serialize, VideoFramePacket.deserialize, u16ToBeBytes,
    List.cons_append, List.nil_append, List.length_cons]
  rw [if_neg (by omega)]
  simp only [List.getD, List.getElem?_cons_zero, List.getElem?_cons_succ, Option.getD_some,
    List.drop_succ_cons, List.drop_zero]
  have e1 := u16_roundtrip p.width hwdt
  have e2 := u16_roundtrip p.height hhgt
  cases p with
  | mk w h d dt => simp_all

/-! ## AudioChunkPacket -/

/-- AudioChunkPacket struct from server/src/protocol/packets.rs; `samples` are i16. -/
structure AudioChunkPacket where
  sampleRate : Nat
  channels : Nat
  samples : List Int
deriving DecidableEq, Repr

/-- Field ranges implied by the Rust types (sample_rate u16, channels u8, samples i16). -/
def AudioChunkPacket.wf (p : AudioChunkPacket) : Prop :=
  p.sampleRate < 2 ^ 16 ∧ p.channels < 2 ^ 8 ∧
    ∀ s ∈ p.samples, -32768 ≤ s ∧ s < 32768

instance (p : AudioChunkPacket) : Decidable p.wf := by
  unfold AudioChunkPacket.wf; infer_instance

/-- AudioChunkPacket::serialize. -/
def AudioChunkPacket.serialize (p : AudioChunkPacket) : List Nat :=
  u16ToBeBytes p.sampleRate ++ p.channels :: (p.samples.map i16ToBeBytes).flatten

/-- Rust `sample_bytes.chunks_exact(2).map(i16::from_be_bytes)` (an odd trailing byte,
which the caller has already ruled out, would be ignored by chunks_exact). -/
def i16Pairs : List Nat → List Int
  | hi :: lo :: rest => i16FromBeBytes hi lo :: i16Pairs rest
  | _ => []

/-- AudioChunkPacket::deserialize. -/
def AudioChunkPacket.deserialize (data : List Nat) : Except ProtocolError AudioChunkPacket :=
  if data.length < 3 then .error (.bufferTooSmall 3 data.length)
  else
    let sampleBytes := data.drop 3
    if sampleBytes.length % 2 ≠ 0 then .error .invalidData
    else
      .ok { sampleRate := u16FromBeBytes (data.getD 0 0) (data.getD 1 0)
            channels := data.getD 2 0
            samples := i16Pairs sampleBytes }

theorem i16Pairs_flatten (samples : List Int)
    (hb : ∀ s ∈ samples, -32768 ≤ s ∧ s < 32768) :
    i16Pairs (samples.map i16ToBeBytes).flatten = samples := by
  induction samples with
  | nil => rfl
  | cons s rest ih =>
    obtain ⟨h1, h2⟩ := hb s (by simp)
    simp only [List.map_cons, List.flatten_cons, i16ToBeBytes, List.cons_append,
      List.append_eq, List.nil_append, i16Pairs]
    rw [i16_roundtrip s h1 h2, ih (fun x hx => hb x (by simp [hx]))]

theorem i16Pairs_length (l : List Nat) : (i16Pairs l).length = l.length / 2 := by
  induction l using i16Pairs.induct with
  | case1 hi lo rest ih => simp only [i16Pairs, List.length_cons]; omega
  | case2 l h => cases l with
    | nil => simp [i16Pairs]
    | cons a t =>
      cases t with
      | nil => simp [i16Pairs]
      | cons b t2 => exact absurd (h a b t2 rfl) not_false

theorem audioChunk_roundtrip (p : AudioChunkPacket) (hw : p.wf) :
    AudioChunkPacket.deserialize p.serialize = .ok p := by
  obtain ⟨hsr, hch, hsm⟩ := hw
  have hlen : (p.samples.map i16ToBeBytes).flatten.length = 2 * p.samples.length := by
    induction p.samples with
    | nil => rfl
    | cons s rest ih =>
      simp only [List.map_cons, List.flatten_cons, List.length_append, i16ToBeBytes,
        List.length_cons, List.length_nil, List.length_map] at ih ⊢
      omega
  simp only [AudioChunkPacket.serialize, AudioChunkPacket.deserialize, u16ToBeBytes,
    List.cons_append, List.nil_append, List.length_cons]
  rw [if_neg (by omega)]
  simp only [List.drop_succ_cons, List.drop_zero, List.length_cons] at hlen ⊢
  rw [if_neg (by omega)]
  simp only [List.getD, List.getElem?_cons_zero, List.getElem?_cons_succ, Option.getD_some]
  have e1 := u16_roundtrip p.sampleRate hsr
  have e2 := i16Pairs_flatten p.samples hsm
  cases p with
  | mk sr ch sm => simp_all

/-! ## InputEventPacket -/

/-- InputEventPacket struct from server/src/protocol/packets.rs. -/
structure InputEventPacket where
  buttons : Nat
  reserved : Nat
deriving DecidableEq, Repr

/-- Field ranges implied by the Rust types (both u16). -/
def InputEventPacket.wf (p : InputEventPacket) : Prop :=
  p.buttons < 2 ^ 16 ∧ p.reserved < 2 ^ 16

instance (p : InputEventPacket) : Decidable p.wf := by
  unfold InputEventPacket.wf; infer_instance

/-- InputEventPacket::serialize. -/
def InputEventPacket.serialize (p : InputEventPacket) : List Nat :=
  u16ToBeBytes p.buttons ++ u16ToBeBytes p.reserved

/-- InputEventPacket::deserialize. -/
def InputEventPacket.deserialize (data : List Nat) : Except ProtocolError InputEventPacket :=
  if data.length < 4 then .error (.bufferTooSmall 4 data.length)
  else
    .ok { buttons := u16FromBeBytes (data.getD 0 0) (data.getD 1 0)
          reserved := u16FromBeBytes (data.getD 2 0) (data.getD 3 0) }

theorem inputEvent_roundtrip (p : InputEventPacket) (hw : p.wf) :
    InputEventPacket.deserialize p.serialize = .ok p := by
  obtain ⟨hb, hr⟩ := hw
  simp only [InputEventPacket.serialize, InputEventPacket.deserialize, u16ToBeBytes,
    List.cons_append, List.nil_append, List.length_cons]
  rw [if_neg (by omega)]
  simp only [List.getD, List.getElem?_cons_zero, List.getElem?_cons_succ, Option.getD_some]
  have e1 := u16_roundtrip p.buttons hb
  have e2 := u16_roundtrip p.reserved hr
  cases p with
  | mk b r => simp_all

/-- C3: for every PacketHeader, VideoFramePacket, AudioChunkPacket and InputEventPacket
(fields in the ranges of their Rust integer types), deserializing the bytes produced by
serialize — passing, for VideoFramePacket, any flags byte whose FLAG_DELTA bit equals
`is_delta` — returns Ok of a packet equal to the original field-for-field. -/
theorem serialization_roundtrip (h : PacketHeader) (v : VideoFramePacket)
    (a : AudioChunkPacket) (i : InputEventPacket) (flags : Nat)
    (hh : h.wf) (hv : v.wf) (ha : a.wf) (hi : i.wf)
    (hf : ((flags &&& 0x01) != 0) = v.isDelta) :
    PacketHeader.deserialize h.serialize = .ok h ∧
    VideoFramePacket.deserialize v.serialize flags = .ok v ∧
    AudioChunkPacket.deserialize a.serialize = .ok a ∧
    InputEventPacket.deserialize i.serialize = .ok i :=
  ⟨packetHeader_roundtrip h hh, videoFrame_roundtrip v hv flags hf,
    audioChunk_roundtrip a ha, inputEvent_roundtrip i hi⟩

theorem serialization_roundtrip_witness :
    PacketHeader.deserialize
        (PacketHeader.serialize ⟨.audioChunk, 1, 0xABCD, 0x12345678⟩)
      = .ok ⟨.audioChunk, 1, 0xABCD, 0x12345678⟩ ∧
    VideoFramePacket.deserialize
        (VideoFramePacket.serialize ⟨64, 32, true, [255, 0, 171, 205]⟩) 3
      = .ok ⟨64, 32, true, [255, 0, 171, 205]⟩ ∧
    AudioChunkPacket.deserialize
        (AudioChunkPacket.serialize ⟨44100, 2, [100, -100, 32767, -32768]⟩)
      = .ok ⟨44100, 2, [100, -100, 32767, -32768]⟩ ∧
    InputEventPacket.deserialize (InputEventPacket.serialize ⟨0xA5, 0x1234⟩)
      = .ok ⟨0xA5, 0x1234⟩ :=
  serialization_roundtrip ⟨.audioChunk, 1, 0xABCD, 0x12345678⟩
    ⟨64, 32, true, [255, 0, 171, 205]⟩ ⟨44100, 2, [100, -100, 32767, -32768]⟩
    ⟨0xA5, 0x1234⟩ 3 (by decide) (by decide) (by decide) (by decide) (by decide)

/-- C10: AudioChunkPacket::deserialize returns BufferTooSmall exactly when the payload has
fewer than 3 bytes, returns InvalidData exactly when it has at least 3 bytes but an odd
number of sample bytes, and otherwise returns Ok with (len - 3) / 2 samples. -/
theorem audioChunk_deserialize_errors (d : List Nat) :
    (AudioChunkPacket.deserialize d = .error (.bufferTooSmall 3 d.length) ↔ d.length < 3) ∧
    (AudioChunkPacket.deserialize d = .error .invalidData ↔
      3 ≤ d.length ∧ (d.length - 3) % 2 = 1) ∧
    (∀ p, AudioChunkPacket.deserialize d = .ok p →
      p.samples.length = (d.length - 3) / 2) := by
  simp only [AudioChunkPacket.deserialize]
  by_cases h3 : d.length < 3
  · rw [if_pos h3]
    refine ⟨by simp [h3], by simp; omega, by simp⟩
  · rw [if_neg h3]
    have hd : (d.drop 3).length = d.length - 3 := by simp
    by_cases hodd : (d.drop 3).length % 2 ≠ 0
    · rw [if_pos hodd]
      exact ⟨iff_of_false (by simp) h3,
        ⟨fun _ => ⟨by omega, by omega⟩, fun _ => rfl⟩, by simp⟩
    · rw [if_neg hodd]
      refine ⟨iff_of_false (by simp) h3, iff_of_false (by simp) (by omega), ?_⟩
      intro p hp
      have : p.samples = i16Pairs (d.drop 3) := by
        cases hp' : p with
        | mk sr ch sm => simp [hp'] at hp; simp [← hp.2.2]
      rw [this, i16Pairs_length, hd]

theorem audioChunk_deserialize_errors_witness :
    AudioChunkPacket.deserialize [5] = .error (.bufferTooSmall 3 1) ∧
    AudioChunkPacket.deserialize [0, 0, 1, 9] = .error .invalidData ∧
    (⟨0, 1, [2313]⟩ : AudioChunkPacket).samples.length = (5 - 3) / 2 :=
  ⟨(audioChunk_deserialize_errors [5]).1.mpr (by decide),
    (audioChunk_deserialize_errors [0, 0, 1, 9]).2.1.mpr (by decide),
    (audioChunk_deserialize_errors [0, 0, 1, 9, 9]).2.2 ⟨0, 1, [2313]⟩ rfl⟩

/-! ## Handshake (server/src/protocol/handshake.rs); Rust `String` error messages are
modelled as their UTF-8 byte lists (all messages involved are ASCII constants). -/

/-- ASCII bytes of the magic string "PERUN_HELLO". -/
def magicHello : List Nat := [80, 69, 82, 85, 78, 95, 72, 69, 76, 76, 79]

/-- HandshakeResult struct from server/src/protocol/handshake.rs. -/
structure HandshakeResult where
  accepted : Bool
  version : Nat
  capabilities : Nat
  errorMsg : Option (List Nat)
deriving DecidableEq, Repr

/-- ASCII bytes of "Invalid magic string". -/
def invalidMagicMsg : List Nat :=
  [73, 110, 118, 97, 108, 105, 100, 32, 109, 97, 103, 105, 99, 32, 115, 116, 114,
   105, 110, 103]

/-- Handshake::create_hello. -/
def createHello (version capabilities : Nat) : List Nat :=
  magicHello ++ u16ToBeBytes version ++ u16ToBeBytes capabilities

/-- Handshake::process_hello (server side). -/
def processHello (data : List Nat) (serverCapabilities : Nat) :
    Except ProtocolError HandshakeResult :=
  if data.length < 15 then .error (.bufferTooSmall 15 data.length)
  else if data.take 11 ≠ magicHello then
    .ok { accepted := false, version := 0, capabilities := 0,
          errorMsg := some invalidMagicMsg }
  else
    .ok { accepted := true
          version := u16FromBeBytes (data.getD 11 0) (data.getD 12 0)
          capabilities :=
            (u16FromBeBytes (data.getD 13 0) (data.getD 14 0)) &&& serverCapabilities
          errorMsg := none }

/-- Handshake::create_ok ("OK" + version + capabilities, big-endian). -/
def createOk (version capabilities : Nat) : List Nat :=
  [79, 75] ++ u16ToBeBytes version ++ u16ToBeBytes capabilities

/-- Handshake::create_error ("ERROR" + message + NUL terminator). -/
def createError (message : List Nat) : List Nat :=
  [69, 82, 82, 79, 82] ++ message ++ [0]

/-- Handshake phase of Server::handle_client (perun-server/src/server.rs lines 147-184):
given the bytes of the client's first read and the server capabilities, returns the
response bytes written back and whether the client was registered (i.e. whether
handle_client proceeded past the handshake instead of returning early). -/
def serverHandshakePhase (received : List Nat) (serverCaps : Nat) : List Nat × Bool :=
  if received.length < 15 then
    (createError [73, 110, 99, 111, 109, 112, 108, 101, 116, 101, 32, 104, 97, 110,
      100, 115, 104, 97, 107, 101], false)
  else
    match processHello received serverCaps with
    | .error _ => ([], false)
    | .ok r =>
      if r.accepted = false then
        (createError (r.errorMsg.getD [85, 110, 107, 110, 111, 119, 110, 32, 101,
          114, 114, 111, 114]), false)
      else
        (createOk 1 r.capabilities, true)

theorem processHello_createHello (version clientCaps serverCaps : Nat)
    (hv : version < 2 ^ 16) (hc : clientCaps < 2 ^ 16) :
    processHello (createHello version clientCaps) serverCaps =
      .ok { accepted := true, version := version,
            capabilities := clientCaps &&& serverCaps, errorMsg := none } := by
  have h1 := u16_roundtrip version hv
  have h2 := u16_roundtrip clientCaps hc
  simp only [processHello, createHello, magicHello, u16ToBeBytes, List.cons_append,
    List.nil_append, List.length_cons, List.length_nil]
  rw [if_neg (by omega)]
  rw [if_neg (by simp)]
  simp only [List.getD, List.get?, Option.getD_some]
  rw [h1, h2]

/-- C6: on every successful handshake the negotiated capabilities equal the bitwise AND
of the client's offered bits and the server's bits, both as returned by process_hello
and as echoed in the capabilities field of the server's OK response. -/
theorem handshake_negotiates_intersection (version clientCaps serverCaps : Nat)
    (hv : version < 2 ^ 16) (hc : clientCaps < 2 ^ 16) :
    (∀ r, processHello (createHello version clientCaps) serverCaps = .ok r →
      r.accepted = true ∧ r.capabilities = clientCaps &&& serverCaps) ∧
    (∀ r, processHello (createHello version clientCaps) serverCaps = .ok r →
      serverHandshakePhase (createHello version clientCaps) serverCaps =
        (createOk 1 (clientCaps &&& serverCaps), true)) := by
  have hph := processHello_createHello version clientCaps serverCaps hv hc
  constructor
  · intro r hr
    rw [hph] at hr
    cases hr
    exact ⟨rfl, rfl⟩
  · intro r _
    have hlen : ¬(createHello version clientCaps).length < 15 := by
      simp [createHello, magicHello, u16ToBeBytes]
    simp only [serverHandshakePhase]
    rw [if_neg hlen, hph]
    simp

theorem handshake_negotiates_intersection_witness :
    (∀ r, processHello (createHello 1 0x07) 0x05 = .ok r →
      r.accepted = true ∧ r.capabilities = 0x07 &&& 0x05) ∧
    (∀ r, processHello (createHello 1 0x07) 0x05 = .ok r →
      serverHandshakePhase (createHello 1 0x07) 0x05 =
        (createOk 1 (0x07 &&& 0x05), true)) :=
  handshake_negotiates_intersection 1 0x07 0x05 (by decide) (by decide)

/-- C8: for every handshake buffer of at least 15 bytes whose first 11 bytes differ from
"PERUN_HELLO", the server writes back exactly "ERROR" ++ message ++ one NUL byte, where
the message is ASCII (hence valid UTF-8), and does not register the client (handle_client
returns before registration, tearing the connection down). -/
theorem handshake_bad_magic_error (received : List Nat) (serverCaps : Nat)
    (hlen : 15 ≤ received.length) (hmagic : received.take 11 ≠ magicHello) :
    serverHandshakePhase received serverCaps =
      ([69, 82, 82, 79, 82] ++ invalidMagicMsg ++ [0], false) ∧
    (∀ b ∈ invalidMagicMsg, b < 128) := by
  refine ⟨?_, by decide⟩
  simp only [serverHandshakePhase, processHello]
  rw [if_neg (by omega), if_neg (by omega), if_pos hmagic]
  simp [createError]

theorem handshake_bad_magic_error_witness :
    15 ≤ ([87, 82, 79, 78, 71, 95, 77, 65, 71, 73, 67, 49, 50, 51, 52] : List Nat).length ∧
    serverHandshakePhase [87, 82, 79, 78, 71, 95, 77, 65, 71, 73, 67, 49, 50, 51, 52] 5 =
      ([69, 82, 82, 79, 82] ++ invalidMagicMsg ++ [0], false) :=
  ⟨by decide,
    (handshake_bad_magic_error
      [87, 82, 79, 78, 71, 95, 77, 65, 71, 73, 67, 49, 50, 51, 52] 5
      (by decide) (by decide)).1⟩

/-! ## XOR delta (perun-server/src/processor.rs, FrameProcessor::compute_delta_simd) -/

/-- Little-endian value of a byte list, as produced by bytemuck's cast of `&[u8]` to
`&[u128]` on a little-endian target. -/
def fromBytesLE : List Nat → Nat
  | [] => 0
  | b :: bs => b + 256 * fromBytesLE bs

/-- First `k` little-endian bytes of a value (inverse of fromBytesLE on k-byte lists). -/
def toBytesLE : Nat → Nat → List Nat
  | 0, _ => []
  | k + 1, v => v % 256 :: toBytesLE k (v / 256)

/-- Loop `for i in 0..chunks` of compute_delta_simd: each iteration XORs one 16-byte
chunk of the two buffers as a single 128-bit value. -/
def xorChunks128 : Nat → List Nat → List Nat → List Nat
  | 0, _, _ => []
  | k + 1, a, b =>
    toBytesLE 16 (Nat.xor (fromBytesLE (a.take 16)) (fromBytesLE (b.take 16))) ++
      xorChunks128 k (a.drop 16) (b.drop 16)

/-- FrameProcessor::compute_delta_simd: `len = min(current.len, previous.len)`;
the first `len / 16` 16-byte chunks are XORed as u128 values, and the remainder
`chunks*16 .. len` is XORed bytewise (List.zipWith over the dropped prefixes yields
exactly the indices `chunks*16 ≤ i < len`). -/
def computeDeltaSimd (current previous : List Nat) : List Nat :=
  let len := min current.length previous.length
  let chunks := len / 16
  xorChunks128 chunks current previous ++
    List.zipWith Nat.xor (current.drop (chunks * 16)) (previous.drop (chunks * 16))

theorem xor_byte_decomp (x y X Y : Nat) (hx : x < 256) (hy : y < 256) :
    Nat.xor (x + 256 * X) (y + 256 * Y) = Nat.xor x y + 256 * Nat.xor X Y := by
  have hx8 : x < 2 ^ 8 := hx
  have hy8 : y < 2 ^ 8 := hy
  have hxy : x ^^^ y < 2 ^ 8 := Nat.xor_lt_two_pow hx8 hy8
  apply Nat.eq_of_testBit_eq
  intro i
  rw [show x + 256 * X = 2 ^ 8 * X + x by ring, show y + 256 * Y = 2 ^ 8 * Y + y by ring,
    show Nat.xor x y + 256 * Nat.xor X Y = 2 ^ 8 * Nat.xor X Y + Nat.xor x y by ring]
  show ((2 ^ 8 * X + x) ^^^ (2 ^ 8 * Y + y)).testBit i =
    (2 ^ 8 * (X ^^^ Y) + (x ^^^ y)).testBit i
  rw [Nat.testBit_xor, Nat.testBit_mul_pow_two_add _ hx8, Nat.testBit_mul_pow_two_add _ hy8,
    Nat.testBit_mul_pow_two_add _ hxy]
  by_cases h : i < 8
  · simp [h]
  · simp [h, Nat.testBit_xor]

theorem toBytesLE_xor (k : Nat) : ∀ a b : List Nat, a.length = k → b.length = k →
    (∀ x ∈ a, x < 256) → (∀ x ∈ b, x < 256) →
    toBytesLE k (Nat.xor (fromBytesLE a) (fromBytesLE b)) = List.zipWith Nat.xor a b := by
  induction k with
  | zero =>
    intro a b ha hb _ _
    rw [List.length_eq_zero] at ha hb
    subst ha; subst hb; rfl
  | succ k ih =>
    intro a b ha hb hba hbb
    cases a with
    | nil => simp at ha
    | cons x xs =>
      cases b with
      | nil => simp at hb
      | cons y ys =>
        have hx : x < 256 := hba x (by simp)
        have hy : y < 256 := hbb y (by simp)
        have hxy : Nat.xor x y < 256 :=
          Nat.xor_lt_two_pow (n := 8) hx hy
        simp only [fromBytesLE, List.zipWith_cons_cons]
        rw [xor_byte_decomp x y _ _ hx hy]
        simp only [toBytesLE]
        rw [Nat.add_mul_mod_self_left, Nat.mod_eq_of_lt hxy,
          Nat.add_mul_div_left _ _ (by norm_num : (0:Nat) < 256),
          Nat.div_eq_of_lt hxy, Nat.zero_add]
        rw [ih xs ys (by simpa using ha) (by simpa using hb)
          (fun z hz => hba z (by simp [hz])) (fun z hz => hbb z (by simp [hz]))]

theorem xorChunks128_eq_zipWith (k : Nat) : ∀ a b : List Nat,
    k * 16 ≤ a.length → k * 16 ≤ b.length →
    (∀ x ∈ a, x < 256) → (∀ x ∈ b, x < 256) →
    xorChunks128 k a b = List.zipWith Nat.xor (a.take (k * 16)) (b.take (k * 16)) := by
  induction k with
  | zero => intro a b _ _ _ _; simp [xorChunks128]
  | succ k ih =>
    intro a b ha hb hba hbb
    have h16a : 16 ≤ a.length := by omega
    have h16b : 16 ≤ b.length := by omega
    simp only [xorChunks128]
    rw [toBytesLE_xor 16 (a.take 16) (b.take 16)
        (by rw [List.length_take]; omega) (by rw [List.length_take]; omega)
        (fun z hz => hba z (List.mem_of_mem_take hz))
        (fun z hz => hbb z (List.mem_of_mem_take hz))]
    rw [ih (a.drop 16) (b.drop 16)
        (by rw [List.length_drop]; omega) (by rw [List.length_drop]; omega)
        (fun z hz => hba z (List.mem_of_mem_drop hz))
        (fun z hz => hbb z (List.mem_of_mem_drop hz))]
    have hsplit : (k + 1) * 16 = 16 + k * 16 := by ring
    rw [hsplit, List.take_add, List.take_add,
      List.zipWith_append _ _ _ _ _ (by rw [List.length_take, List.length_take]; omega)]

/-- The delta computed by compute_delta_simd equals the plain bytewise XOR. -/
theorem computeDeltaSimd_eq_zipWith (current previous : List Nat)
    (hc : ∀ x ∈ current, x < 256) (hp : ∀ x ∈ previous, x < 256) :
    computeDeltaSimd current previous = List.zipWith Nat.xor current previous := by
  simp only [computeDeltaSimd]
  set len := min current.length previous.length with hlen
  have hchunks : len / 16 * 16 ≤ len := Nat.div_mul_le_self len 16
  rw [xorChunks128_eq_zipWith (len / 16) current previous
      (by omega) (by omega) hc hp]
  rw [← List.take_zipWith, ← List.drop_zipWith, List.take_append_drop]

/-- C9: compute_delta_simd (16-byte u128 chunks plus scalar tail) is total and its
output at every index equals current[i] XOR previous[i] — bit-identical to the scalar
XOR loop — for every pair of equal-length byte buffers. -/
theorem computeDeltaSimd_scalar_equiv (current previous : List Nat)
    (hlen : current.length = previous.length)
    (hc : ∀ x ∈ current, x < 256) (hp : ∀ x ∈ previous, x < 256) :
    computeDeltaSimd current previous = List.zipWith Nat.xor current previous ∧
    (computeDeltaSimd current previous).length = current.length ∧
    ∀ i (_hik : i < current.length),
      (computeDeltaSimd current previous).getD i 0 =
        Nat.xor (current.getD i 0) (previous.getD i 0) := by
  have heq := computeDeltaSimd_eq_zipWith current previous hc hp
  refine ⟨heq, ?_, ?_⟩
  · rw [heq, List.length_zipWith]; omega
  · intro i hik
    rw [heq]
    have hi2 : i < previous.length := by omega
    rw [List.getD_eq_getElem _ _ hik, List.getD_eq_getElem _ _ hi2,
      List.getD_eq_getElem _ _ (by rw [List.length_zipWith]; omega)]
    simp

theorem computeDeltaSimd_scalar_equiv_witness :
    computeDeltaSimd [1, 2, 3] [255, 2, 128] = List.zipWith Nat.xor [1, 2, 3] [255, 2, 128] ∧
    (computeDeltaSimd [1, 2, 3] [255, 2, 128]).length = 3 ∧
    ∀ i (_hik : i < ([1, 2, 3] : List Nat).length),
      (computeDeltaSimd [1, 2, 3] [255, 2, 128]).getD i 0 =
        Nat.xor (([1, 2, 3] : List Nat).getD i 0) (([255, 2, 128] : List Nat).getD i 0) :=
  computeDeltaSimd_scalar_equiv [1, 2, 3] [255, 2, 128] (by decide) (by decide) (by decide)

/-! ## Client-side reconstruction (perun-client/src/lib.rs, ClientInner::render_frame) -/

/-- Rust `Vec::resize(n, v)`: truncate or pad with `v` to length `n`. -/
def listResize (l : List Nat) (n : Nat) (v : Nat) : List Nat :=
  l.take n ++ List.replicate (n - l.length) v

/-- Delta loop of render_frame (`for i in 0..len { image[i] = prev[i] ^ data[i] }` with
`len = min(image.len, data.len)`; indices at or past `len` keep the old image bytes).
The Rust loop indexes `prev[i]`, which in context always has the image buffer's length;
the `take len` makes the translation total. -/
def applyDelta (image prev data : List Nat) : List Nat :=
  let len := min image.length data.length
  (List.zipWith Nat.xor prev data).take len ++ image.drop len

/-- ClientInner state used by render_frame (canvas/ctx/ws omitted: render_frame only
draws from image_data_buffer, which the model keeps). -/
structure ClientState where
  width : Nat
  height : Nat
  imageBuffer : List Nat
  prevBuffer : List Nat
deriving DecidableEq, Repr

/-- Fresh client as built by PerunClient::new (width = height = 0, empty buffers). -/
def ClientState.fresh : ClientState := ⟨0, 0, [], []⟩

/-- Video packet as seen by render_frame; its `data` field holds the payload after
VideoFramePacket::deserialize has LZ4-decompressed it. -/
structure WireFrame where
  width : Nat
  height : Nat
  isDelta : Bool
  data : List Nat
deriving DecidableEq, Repr

/-- ClientInner::render_frame: resize both buffers on a geometry change (image filled
with 255, previous with 0), then apply the delta XOR loop or a full-frame copy (the
copy is skipped on length mismatch), and finally copy image into previous. -/
def ClientState.renderFrame (c : ClientState) (f : WireFrame) : ClientState :=
  let c :=
    if c.width ≠ f.width ∨ c.height ≠ f.height then
      let size := f.width * f.height * 4
      { width := f.width, height := f.height,
        imageBuffer := listResize c.imageBuffer size 255,
        prevBuffer := listResize c.prevBuffer size 0 }
    else c
  let image :=
    if f.isDelta then applyDelta c.imageBuffer c.prevBuffer f.data
    else if f.data.length = c.imageBuffer.length then f.data
    else c.imageBuffer
  { c with imageBuffer := image, prevBuffer := image }

theorem zipWith_xor_cancel (a b : List Nat) (hlen : a.length = b.length) :
    List.zipWith Nat.xor a (List.zipWith Nat.xor b a) = b := by
  induction a generalizing b with
  | nil => cases b with
    | nil => rfl
    | cons y ys => simp at hlen
  | cons x xs ih =>
    cases b with
    | nil => simp at hlen
    | cons y ys =>
      simp only [List.zipWith_cons_cons, List.cons.injEq]
      constructor
      · show x ^^^ (y ^^^ x) = y
        rw [Nat.xor_comm y x, ← Nat.xor_assoc, Nat.xor_self, Nat.zero_xor]
      · exact ih ys (by simpa using hlen)

theorem applyDelta_computeDelta_recovers (A B : List Nat) (hlen : A.length = B.length)
    (hA : ∀ x ∈ A, x < 256) (hB : ∀ x ∈ B, x < 256) :
    applyDelta A A (computeDeltaSimd B A) = B := by
  rw [computeDeltaSimd_eq_zipWith B A hB hA]
  simp only [applyDelta]
  have hz : (List.zipWith Nat.xor B A).length = A.length := by
    rw [List.length_zipWith]; omega
  rw [zipWith_xor_cancel A B hlen]
  rw [hz, min_self, List.take_of_length_le (le_of_eq hlen.symm),
    List.drop_of_length_le (le_of_eq rfl), List.append_nil]

/-- C2: for every pair of equal-length byte buffers A and B, applying the client's
delta step (render_frame's XOR loop, with previous frame A and current image buffer A)
to the processor's computed delta compute_delta_simd(B, A) yields exactly B. -/
theorem apply_delta_xor_roundtrip (A B : List Nat) (hlen : A.length = B.length)
    (hA : ∀ x ∈ A, x < 256) (hB : ∀ x ∈ B, x < 256) :
    applyDelta A A (computeDeltaSimd B A) = B :=
  applyDelta_computeDelta_recovers A B hlen hA hB

theorem apply_delta_xor_roundtrip_witness :
    applyDelta [0, 0, 0, 0] [0, 0, 0, 0] (computeDeltaSimd [255, 1, 2, 3] [0, 0, 0, 0]) =
      [255, 1, 2, 3] :=
  apply_delta_xor_roundtrip [0, 0, 0, 0] [255, 1, 2, 3] (by decide) (by decide) (by decide)

/-! ## Frame processor (perun-server/src/processor.rs) -/

/-- ProcessorState (FrameProcessor struct): last_frame plus last_keyframe, with
Instant modelled as a millisecond timestamp.  frame_count only drives the logging
statement and force_keyframe_interval is the constant 1 s, so neither is kept. -/
structure FrameProcessor where
  lastFrame : List Nat
  lastKeyframe : Nat
deriving DecidableEq, Repr

/-- FrameProcessor::new, called at wall time `now` (last_frame empty,
last_keyframe = Instant::now()). -/
def FrameProcessor.new (now : Nat) : FrameProcessor := ⟨[], now⟩

/-- FrameProcessor::process.  `now` stands for Instant::now() at the call, so
`elapsed >= 1s` becomes `1000 ≤ now - lastKeyframe`.  `deltaSmaller` abstracts the
LZ4 size comparison `compressed_delta.len() < compressed_full.len()` (the only use
the control flow makes of the compressed bytes).  The emitted WireFrame carries the
chosen pre-compression payload — the LZ4 codec round-trips, so this is exactly what
the client's decompression recovers — together with the FLAG_DELTA decision. -/
def FrameProcessor.process (s : FrameProcessor) (now width height : Nat)
    (currentFrame : List Nat) (deltaSmaller : Bool) : FrameProcessor × WireFrame :=
  let deltaData :=
    if ¬(1000 ≤ now - s.lastKeyframe) ∧ s.lastFrame.length = currentFrame.length then
      some (computeDeltaSimd currentFrame s.lastFrame)
    else none
  let best :=
    match deltaData with
    | some delta => if deltaSmaller then (delta, true) else (currentFrame, false)
    | none => (currentFrame, false)
  ({ lastFrame := currentFrame,
     lastKeyframe := if best.2 then s.lastKeyframe else now },
   { width := width, height := height, isDelta := best.2, data := best.1 })

/-- Sequence of packets emitted by repeated process calls, each call given as
(now, current_frame, deltaSmaller). -/
def processorRun (s : FrameProcessor) (width height : Nat) :
    List (Nat × List Nat × Bool) → List WireFrame
  | [] => []
  | c :: rest =>
    let r := s.process c.1 width height c.2.1 c.2.2
    r.2 :: processorRun r.1 width height rest

/-- Sixty-one process calls at millisecond timestamps 0, 1, ..., 60 on a fresh
processor, all with the same 1×1 RGBA frame and with every delta winning the size
comparison. -/
def keyframeStarveCalls : List (Nat × List Nat × Bool) :=
  (List.range 61).map (fun i => (i, [9, 9, 9, 9], true))

/-- C5 counterexample: in the 61-call trace above, the 60 consecutive calls 2..61 all
emit deltas even though all 61 calls happen inside one second of wall time — the code
has no per-call-count keyframe rule, so the claimed "one keyframe per 60 consecutive
calls, whichever bound is reached first" fails. -/
theorem keyframe_every_60_calls_counterexample :
    (processorRun (FrameProcessor.new 0) 1 1 keyframeStarveCalls).map WireFrame.isDelta =
      false :: List.replicate 60 true ∧
    keyframeStarveCalls.length = 61 ∧
    keyframeStarveCalls.all (fun c => c.1 < 1000) = true := by decide

/-- C5 amended: the only keyframe rules process implements are time- and availability-
based: a call made when at least one second of wall time has elapsed since the last
keyframe emits a keyframe (and resets the keyframe clock to the call time), and a call
whose frame length differs from the stored previous frame (in particular the first
frame in the processor's life, stored frame empty) emits a keyframe.  There is no
per-call-count bound. -/
theorem keyframe_policy (s : FrameProcessor) (now width height : Nat)
    (frame : List Nat) (deltaSmaller : Bool) :
    (s.lastKeyframe + 1000 ≤ now →
      (s.process now width height frame deltaSmaller).2.isDelta = false ∧
      (s.process now width height frame deltaSmaller).1.lastKeyframe = now) ∧
    (s.lastFrame.length ≠ frame.length →
      (s.process now width height frame deltaSmaller).2.isDelta = false) := by
  constructor
  · intro hfor
    have hcond : ¬(¬(1000 ≤ now - s.lastKeyframe) ∧
        s.lastFrame.length = frame.length) := by
      intro h
      exact h.1 (by omega)
    simp only [FrameProcessor.process, if_neg hcond]
    simp
  · intro hlen
    have hcond : ¬(¬(1000 ≤ now - s.lastKeyframe) ∧
        s.lastFrame.length = frame.length) := fun h => hlen h.2
    simp only [FrameProcessor.process, if_neg hcond]

theorem keyframe_policy_witness :
    (⟨[7, 7, 7, 7], 0⟩ : FrameProcessor).lastKeyframe + 1000 ≤ 1500 ∧
    ((⟨[7, 7, 7, 7], 0⟩ : FrameProcessor).process 1500 1 1 [9, 9, 9, 9]
        true).2.isDelta = false ∧
    ((⟨[7, 7, 7, 7], 0⟩ : FrameProcessor).process 1500 1 1 [9, 9, 9, 9]
        true).1.lastKeyframe = 1500 ∧
    ((FrameProcessor.new 0).process 0 1 1 [9, 9, 9, 9] true).2.isDelta = false :=
  ⟨by decide,
    ((keyframe_policy ⟨[7, 7, 7, 7], 0⟩ 1500 1 1 [9, 9, 9, 9] true).1 (by decide)).1,
    ((keyframe_policy ⟨[7, 7, 7, 7], 0⟩ 1500 1 1 [9, 9, 9, 9] true).1 (by decide)).2,
    (keyframe_policy (FrameProcessor.new 0) 0 1 1 [9, 9, 9, 9] true).2 (by decide)⟩

/-! ## End-to-end pipeline (processor packets delivered in order to a single client) -/

/-- One produce-and-deliver step: the processor handles one raw frame (a call is
(now, current_frame, deltaSmaller)) and the client immediately renders the emitted
packet. -/
def pipelineStep (width height : Nat) (st : FrameProcessor × ClientState)
    (call : Nat × List Nat × Bool) : FrameProcessor × ClientState :=
  let r := st.1.process call.1 width height call.2.1 call.2.2
  (r.1, st.2.renderFrame r.2)

/-- Fold of pipelineStep over a list of calls. -/
def runPipeline (width height : Nat) (st : FrameProcessor × ClientState) :
    List (Nat × List Nat × Bool) → FrameProcessor × ClientState
  | [] => st
  | c :: rest => runPipeline width height (pipelineStep width height st c) rest

/-- Invariant tying processor and client state to the last raw frame f. -/
def Synced (width height : Nat) (p : FrameProcessor) (c : ClientState)
    (f : List Nat) : Prop :=
  p.lastFrame = f ∧ c.imageBuffer = f ∧ c.prevBuffer = f ∧
    c.width = width ∧ c.height = height ∧ f.length = width * height * 4 ∧
    ∀ x ∈ f, x < 256

theorem process_delta_char (s : FrameProcessor) (now width height : Nat) (g : List Nat)
    (hcond : ¬(1000 ≤ now - s.lastKeyframe) ∧ s.lastFrame.length = g.length) :
    s.process now width height g true =
      (⟨g, s.lastKeyframe⟩, ⟨width, height, true, computeDeltaSimd g s.lastFrame⟩) := by
  simp only [FrameProcessor.process, if_pos hcond]
  simp

theorem process_deltaLoses_char (s : FrameProcessor) (now width height : Nat)
    (g : List Nat)
    (hcond : ¬(1000 ≤ now - s.lastKeyframe) ∧ s.lastFrame.length = g.length) :
    s.process now width height g false = (⟨g, now⟩, ⟨width, height, false, g⟩) := by
  simp only [FrameProcessor.process, if_pos hcond]
  simp

theorem process_nodelta_char (s : FrameProcessor) (now width height : Nat)
    (g : List Nat) (ds : Bool)
    (hcond : ¬(¬(1000 ≤ now - s.lastKeyframe) ∧ s.lastFrame.length = g.length)) :
    s.process now width height g ds = (⟨g, now⟩, ⟨width, height, false, g⟩) := by
  simp only [FrameProcessor.process, if_neg hcond]
  simp

theorem renderFrame_full_synced (width height : Nat) (cl : ClientState) (f g : List Nat)
    (hci : cl.imageBuffer = f) (hcw : cl.width = width) (hch : cl.height = height)
    (hfl : f.length = width * height * 4) (hg : g.length = width * height * 4) :
    cl.renderFrame ⟨width, height, false, g⟩ = ⟨width, height, g, g⟩ := by
  simp only [ClientState.renderFrame]
  rw [if_neg (by simp [hcw, hch])]
  have hdata : g.length = cl.imageBuffer.length := by rw [hci]; omega
  simp only [Bool.false_eq_true, if_false, if_pos hdata]
  cases cl with
  | mk w h ib pb => simp_all

theorem renderFrame_delta_synced (width height : Nat) (cl : ClientState)
    (f d : List Nat)
    (hci : cl.imageBuffer = f) (hcp : cl.prevBuffer = f)
    (hcw : cl.width = width) (hch : cl.height = height) :
    cl.renderFrame ⟨width, height, true, d⟩ =
      ⟨width, height, applyDelta f f d, applyDelta f f d⟩ := by
  simp only [ClientState.renderFrame]
  rw [if_neg (by simp [hcw, hch])]
  simp only [if_true]
  cases cl with
  | mk w h ib pb => simp_all

theorem pipelineStep_synced (width height : Nat) (st : FrameProcessor × ClientState)
    (f : List Nat) (call : Nat × List Nat × Bool)
    (hs : Synced width height st.1 st.2 f)
    (hg : call.2.1.length = width * height * 4)
    (hgb : ∀ x ∈ call.2.1, x < 256) :
    Synced width height (pipelineStep width height st call).1
      (pipelineStep width height st call).2 call.2.1 := by
  obtain ⟨p, cl⟩ := st
  obtain ⟨now, g, ds⟩ := call
  obtain ⟨hpf, hci, hcp, hcw, hch, hfl, hfb⟩ := hs
  simp only at hg hgb hpf hci hcp hcw hch ⊢
  have hflg : f.length = g.length := by omega
  by_cases hcond : ¬(1000 ≤ now - p.lastKeyframe) ∧ p.lastFrame.length = g.length
  · cases ds with
    | true =>
      simp only [pipelineStep, process_delta_char p now width height g hcond, hpf]
      rw [renderFrame_delta_synced width height cl f (computeDeltaSimd g f)
        hci hcp hcw hch]
      rw [applyDelta_computeDelta_recovers f g hflg hfb hgb]
      exact ⟨rfl, rfl, rfl, rfl, rfl, hg, hgb⟩
    | false =>
      simp only [pipelineStep, process_deltaLoses_char p now width height g hcond]
      rw [renderFrame_full_synced width height cl f g hci hcw hch hfl hg]
      exact ⟨rfl, rfl, rfl, rfl, rfl, hg, hgb⟩
  · simp only [pipelineStep, process_nodelta_char p now width height g ds hcond]
    rw [renderFrame_full_synced width height cl f g hci hcw hch hfl hg]
    exact ⟨rfl, rfl, rfl, rfl, rfl, hg, hgb⟩

theorem renderFrame_fresh_empty (width height : Nat) (b : Bool)
    (h0 : width * height * 4 = 0) :
    ClientState.fresh.renderFrame ⟨width, height, b, []⟩ = ⟨width, height, [], []⟩ := by
  simp only [ClientState.renderFrame, ClientState.fresh]
  have hres : listResize [] (width * height * 4) 255 = [] := by
    simp [listResize, h0]
  have hres0 : listResize [] (width * height * 4) 0 = [] := by
    simp [listResize, h0]
  by_cases hwh : (0 : Nat) ≠ width ∨ (0 : Nat) ≠ height
  · rw [if_pos hwh]
    simp only [hres, hres0]
    cases b <;> simp [applyDelta]
  · rw [if_neg hwh]
    push_neg at hwh
    obtain ⟨hw, hh⟩ := hwh
    subst hw
    subst hh
    cases b <;> simp [applyDelta]

theorem renderFrame_fresh_key (width height : Nat) (g : List Nat)
    (hg : g.length = width * height * 4) (hne : g ≠ []) :
    ClientState.fresh.renderFrame ⟨width, height, false, g⟩ = ⟨width, height, g, g⟩ := by
  have hpos : 0 < width * height * 4 := by
    rcases Nat.eq_zero_or_pos (width * height * 4) with h0 | h
    · exact absurd (List.length_eq_zero.mp (by omega)) hne
    · exact h
  have hw : (0 : Nat) ≠ width := by
    intro h
    rw [← h] at hpos
    simp at hpos
  simp only [ClientState.renderFrame, ClientState.fresh]
  rw [if_pos (Or.inl hw)]
  have hlenres : (listResize [] (width * height * 4) 255).length = width * height * 4 := by
    simp [listResize]
  simp only [Bool.false_eq_true, if_false]
  rw [if_pos (by omega : g.length = (listResize [] (width * height * 4) 255).length)]

theorem pipelineStep_fresh (width height now0 : Nat) (call : Nat × List Nat × Bool)
    (hg : call.2.1.length = width * height * 4)
    (hgb : ∀ x ∈ call.2.1, x < 256) :
    Synced width height
      (pipelineStep width height (FrameProcessor.new now0, ClientState.fresh) call).1
      (pipelineStep width height (FrameProcessor.new now0, ClientState.fresh) call).2
      call.2.1 := by
  obtain ⟨now, g, ds⟩ := call
  simp only at hg hgb ⊢
  by_cases hempty : g = []
  · subst hempty
    have h0 : width * height * 4 = 0 := by simpa using hg.symm
    by_cases hcond : ¬(1000 ≤ now - (FrameProcessor.new now0).lastKeyframe) ∧
        (FrameProcessor.new now0).lastFrame.length = ([] : List Nat).length
    · cases ds with
      | true =>
        simp only [pipelineStep, process_delta_char _ now width height [] hcond]
        have hd : computeDeltaSimd [] (FrameProcessor.new now0).lastFrame = [] := by
          simp [computeDeltaSimd, FrameProcessor.new, xorChunks128]
        rw [hd, renderFrame_fresh_empty width height true h0]
        exact ⟨rfl, rfl, rfl, rfl, rfl, by simpa using h0.symm, by simp⟩
      | false =>
        simp only [pipelineStep, process_deltaLoses_char _ now width height [] hcond]
        rw [renderFrame_fresh_empty width height false h0]
        exact ⟨rfl, rfl, rfl, rfl, rfl, by simpa using h0.symm, by simp⟩
    · simp only [pipelineStep, process_nodelta_char _ now width height [] ds hcond]
      rw [renderFrame_fresh_empty width height false h0]
      exact ⟨rfl, rfl, rfl, rfl, rfl, by simpa using h0.symm, by simp⟩
  · have hlen0 : (FrameProcessor.new now0).lastFrame.length ≠ g.length := by
      simp only [FrameProcessor.new, List.length_nil]
      intro h
      exact hempty (List.length_eq_zero.mp h.symm)
    simp only [pipelineStep,
      process_nodelta_char _ now width height g ds (fun h => hlen0 h.2)]
    rw [renderFrame_fresh_key width height g hg hempty]
    exact ⟨rfl, rfl, rfl, rfl, rfl, hg, hgb⟩

theorem runPipeline_append (width height : Nat) (st : FrameProcessor × ClientState)
    (l1 l2 : List (Nat × List Nat × Bool)) :
    runPipeline width height st (l1 ++ l2) =
      runPipeline width height (runPipeline width height st l1) l2 := by
  induction l1 generalizing st with
  | nil => rfl
  | cons c rest ih =>
    simp only [List.cons_append, runPipeline]
    exact ih _

theorem synced_after_take (width height now0 : Nat)
    (calls : List (Nat × List Nat × Bool))
    (hlen : ∀ c ∈ calls, c.2.1.length = width * height * 4)
    (hbytes : ∀ c ∈ calls, ∀ x ∈ c.2.1, x < 256) :
    ∀ i (hi : i < calls.length),
      Synced width height
        (runPipeline width height (FrameProcessor.new now0, ClientState.fresh)
          (calls.take (i + 1))).1
        (runPipeline width height (FrameProcessor.new now0, ClientState.fresh)
          (calls.take (i + 1))).2
        (calls.get ⟨i, hi⟩).2.1 := by
  intro i
  induction i with
  | zero =>
    intro hi
    have htake : calls.take 1 = [calls.get ⟨0, hi⟩] := by
      rw [List.take_succ, List.take_zero, List.nil_append,
        List.getElem?_eq_getElem hi]
      rfl
    rw [htake]
    exact pipelineStep_fresh width height now0 _
      (hlen _ (calls.get_mem 0 hi)) (hbytes _ (calls.get_mem 0 hi))
  | succ n ih =>
    intro hi
    have hn : n < calls.length := by omega
    have htake : calls.take (n + 2) = calls.take (n + 1) ++ [calls.get ⟨n + 1, hi⟩] := by
      rw [List.take_succ, List.getElem?_eq_getElem hi]
      rfl
    rw [htake, runPipeline_append]
    exact pipelineStep_synced width height _ _ _ (ih hn)
      (hlen _ (calls.get_mem (n + 1) hi)) (hbytes _ (calls.get_mem (n + 1) hi))

/-- C1: feed any sequence of equal-size RGBA frames (each width*height*4 bytes) through
FrameProcessor::process — at arbitrary call times and with arbitrary outcomes of the
compressed-size comparison — and deliver every emitted packet in order to a fresh
client; after the client renders the packet for frame i, its image_buffer equals frame
i byte-for-byte. -/
theorem pipeline_reconstruction (width height now0 : Nat)
    (calls : List (Nat × List Nat × Bool))
    (hlen : ∀ c ∈ calls, c.2.1.length = width * height * 4)
    (hbytes : ∀ c ∈ calls, ∀ x ∈ c.2.1, x < 256)
    (i : Nat) (hi : i < calls.length) :
    (runPipeline width height (FrameProcessor.new now0, ClientState.fresh)
        (calls.take (i + 1))).2.imageBuffer = (calls.get ⟨i, hi⟩).2.1 :=
  (synced_after_take width height now0 calls hlen hbytes i hi).2.1

theorem pipeline_reconstruction_witness :
    (runPipeline 1 1 (FrameProcessor.new 0, ClientState.fresh)
        (([(0, [1, 2, 3, 4], true), (5, [9, 8, 7, 6], true)] :
          List (Nat × List Nat × Bool)).take 2)).2.imageBuffer = [9, 8, 7, 6] :=
  pipeline_reconstruction 1 1 0 [(0, [1, 2, 3, 4], true), (5, [9, 8, 7, 6], true)]
    (by decide) (by decide) 1 (by decide)

/-! ## Shared-memory handoff (perun-server/src/shm.rs and perun-core/src/lib.rs) -/

/-- Status values of the shared region's status_flag.  Modelled from the spec: the
ShmState struct lives in the perun-shm crate, which is not in the tree; the spec fixes
the enum {IDLE=0, CORE_WRITING=1, FRAME_READY=2, SERVER_READING=3} and the code in the
tree refers to the four constants by name. -/
inductive ShmStatus
  | idle
  | coreWriting
  | frameReady
  | serverReading
deriving DecidableEq, Repr

/-- ShmState fields used by the code in the tree.  Modelled from the spec: status_flag,
input_flags, geometry, and an inline frame_buffer of row-major RGBA bytes. -/
structure ShmState where
  status : ShmStatus
  inputFlags : Nat
  width : Nat
  height : Nat
  frameBuffer : List Nat
deriving DecidableEq, Repr

/-- Successor along the ring IDLE → CORE_WRITING → FRAME_READY → SERVER_READING → IDLE. -/
def ringNext : ShmStatus → ShmStatus
  | .idle => .coreWriting
  | .coreWriting => .frameReady
  | .frameReady => .serverReading
  | .serverReading => .idle

/-- The store sequence `ts` follows consecutive ring edges starting from status `s`. -/
def RingChain : ShmStatus → List ShmStatus → Prop
  | _, [] => True
  | s, t :: ts => t = ringNext s ∧ RingChain t ts

/-- Result of ShmHost::read_frame_into: new shared state, the caller's buffer, the
Option return value, and the sequence of status_flag stores performed. -/
structure ReadFrameResult where
  shm : ShmState
  buffer : List Nat
  result : Option (Nat × Nat)
  stores : List ShmStatus
deriving DecidableEq, Repr

set_option linter.unusedVariables false in
/-- ShmHost::read_frame_into: consumer step of the handoff.  On FRAME_READY it stores
SERVER_READING, resizes the caller's buffer to width*height*4 if needed, copies
frame_buffer[0..w*h*4] into it, and stores IDLE; on any other status it returns None
and touches nothing. -/
def readFrameInto (s : ShmState) (buffer : List Nat) : ReadFrameResult :=
  if s.status = .frameReady then
    let expected := s.width * s.height * 4
    let buffer := if buffer.length ≠ expected then listResize buffer expected 0 else buffer
    let buffer := s.frameBuffer.take expected
    { shm := { s with status := .idle }
      buffer := buffer
      result := some (s.width, s.height)
      stores := [.serverReading, .idle] }
  else
    { shm := s, buffer := buffer, result := none, stores := [] }

/-- Result of one iteration of the producer loop in perun-core run. -/
structure ProducerResult where
  shm : ShmState
  stores : List ShmStatus
deriving DecidableEq, Repr

/-- One iteration of the core's producer loop (perun-core/src/lib.rs run): on IDLE it
stores CORE_WRITING, runs `core.update` on input_flags and the first width*height*4
bytes of the frame buffer (`upd` — returning none models the error path, which breaks
the loop leaving the status at CORE_WRITING), then stores FRAME_READY; on any other
status it only yields. -/
def producerIteration (s : ShmState) (width height : Nat)
    (upd : Nat → List Nat → Option (List Nat)) : ProducerResult :=
  if s.status = .idle then
    let input := s.inputFlags
    let bufferLen := width * height * 4
    match upd input (s.frameBuffer.take bufferLen) with
    | none =>
      { shm := { s with status := .coreWriting }, stores := [.coreWriting] }
    | some pixels =>
      { shm :=
          { s with
            status := .frameReady
            frameBuffer := pixels ++ s.frameBuffer.drop bufferLen }
        stores := [.coreWriting, .frameReady] }
  else
    { shm := s, stores := [] }

/-- C4: the consumer step and the producer loop keep status_flag on the ring
IDLE → CORE_WRITING → FRAME_READY → SERVER_READING → IDLE, the relay writing only
SERVER_READING/IDLE and the core only CORE_WRITING/FRAME_READY; a consumer observing
anything but FRAME_READY returns None changing neither status nor the caller's buffer;
a consumer observing FRAME_READY copies width*height*4 bytes and leaves status IDLE. -/
theorem shm_ring_invariant (s : ShmState) (buffer : List Nat) (width height : Nat)
    (upd : Nat → List Nat → Option (List Nat)) :
    RingChain s.status (readFrameInto s buffer).stores ∧
    (∀ t ∈ (readFrameInto s buffer).stores, t = .serverReading ∨ t = .idle) ∧
    RingChain s.status (producerIteration s width height upd).stores ∧
    (∀ t ∈ (producerIteration s width height upd).stores,
      t = .coreWriting ∨ t = .frameReady) ∧
    (s.status ≠ .frameReady →
      readFrameInto s buffer = ⟨s, buffer, none, []⟩) ∧
    (s.status = .frameReady → s.width * s.height * 4 ≤ s.frameBuffer.length →
      (readFrameInto s buffer).buffer = s.frameBuffer.take (s.width * s.height * 4) ∧
      (readFrameInto s buffer).buffer.length = s.width * s.height * 4 ∧
      (readFrameInto s buffer).shm.status = .idle ∧
      (readFrameInto s buffer).result = some (s.width, s.height)) := by
  have hread : ∀ hs : s.status = .frameReady,
      readFrameInto s buffer =
        { shm := { s with status := .idle }
          buffer := s.frameBuffer.take (s.width * s.height * 4)
          result := some (s.width, s.height)
          stores := [.serverReading, .idle] } := by
    intro hs
    simp only [readFrameInto, if_pos hs]
  have hprod : ∀ hs : s.status = .idle, (producerIteration s width height upd).stores =
      (match upd s.inputFlags (s.frameBuffer.take (width * height * 4)) with
        | none => [ShmStatus.coreWriting]
        | some _ => [ShmStatus.coreWriting, ShmStatus.frameReady]) := by
    intro hs
    simp only [producerIteration, if_pos hs]
    cases upd s.inputFlags (s.frameBuffer.take (width * height * 4)) <;> simp
  refine ⟨?_, ?_, ?_, ?_, ?_, ?_⟩
  · by_cases hs : s.status = .frameReady
    · rw [hread hs, hs]
      exact ⟨rfl, rfl, trivial⟩
    · simp only [readFrameInto, if_neg hs]
      trivial
  · by_cases hs : s.status = .frameReady
    · rw [hread hs]
      intro t ht
      simp only [List.mem_cons, List.not_mem_nil, or_false] at ht
      rcases ht with rfl | rfl
      · exact Or.inl rfl
      · exact Or.inr rfl
    · simp only [readFrameInto, if_neg hs]
      intro t ht
      cases ht
  · by_cases hs : s.status = .idle
    · rw [hprod hs, hs]
      cases upd s.inputFlags (s.frameBuffer.take (width * height * 4)) with
      | none => exact ⟨rfl, trivial⟩
      | some _ => exact ⟨rfl, rfl, trivial⟩
    · simp only [producerIteration, if_neg hs]
      trivial
  · by_cases hs : s.status = .idle
    · rw [hprod hs]
      cases upd s.inputFlags (s.frameBuffer.take (width * height * 4)) with
      | none =>
        intro t ht
        simp only [List.mem_cons, List.not_mem_nil, or_false] at ht
        exact Or.inl ht
      | some _ =>
        intro t ht
        simp only [List.mem_cons, List.not_mem_nil, or_false] at ht
        rcases ht with rfl | rfl
        · exact Or.inl rfl
        · exact Or.inr rfl
    · simp only [producerIteration, if_neg hs]
      intro t ht
      cases ht
  · intro hs
    simp only [readFrameInto, if_neg hs]
  · intro hs hcap
    rw [hread hs]
    exact ⟨rfl, by simpa using hcap, rfl, rfl⟩

theorem shm_ring_invariant_witness :
    RingChain ShmStatus.frameReady
      (readFrameInto ⟨.frameReady, 0, 1, 1, [1, 2, 3, 4]⟩ []).stores ∧
    (readFrameInto ⟨.frameReady, 0, 1, 1, [1, 2, 3, 4]⟩ []).buffer = [1, 2, 3, 4] ∧
    (readFrameInto ⟨.frameReady, 0, 1, 1, [1, 2, 3, 4]⟩ []).shm.status = .idle ∧
    readFrameInto ⟨.idle, 0, 1, 1, [1, 2, 3, 4]⟩ [9] =
      ⟨⟨.idle, 0, 1, 1, [1, 2, 3, 4]⟩, [9], none, []⟩ :=
  ⟨(shm_ring_invariant ⟨.frameReady, 0, 1, 1, [1, 2, 3, 4]⟩ [] 1 1
      (fun _ v => some v)).1,
    ((shm_ring_invariant ⟨.frameReady, 0, 1, 1, [1, 2, 3, 4]⟩ [] 1 1
      (fun _ v => some v)).2.2.2.2.2 rfl (by decide)).1,
    ((shm_ring_invariant ⟨.frameReady, 0, 1, 1, [1, 2, 3, 4]⟩ [] 1 1
      (fun _ v => some v)).2.2.2.2.2 rfl (by decide)).2.2.1,
    (shm_ring_invariant ⟨.idle, 0, 1, 1, [1, 2, 3, 4]⟩ [9] 1 1
      (fun _ v => some v)).2.2.2.2.1 (by decide)⟩

/-! ## Per-connection read task (perun-server/src/server.rs, Server::handle_client) -/

/-- Events the read task forwards to the event channel. -/
inductive ReadEvent
  | inputEventReceived (p : InputEventPacket)
  | videoFrameReceived (p : VideoFramePacket)
deriving DecidableEq, Repr

/-- Dispatch arm of the read task: InputEvent and VideoFrame payloads that deserialize
successfully are forwarded as events; every other packet type (and any payload
deserialize failure) is only logged. -/
def dispatchPacket (hd : PacketHeader) (payload : List Nat) : List ReadEvent :=
  match hd.packetType with
  | .inputEvent =>
    match InputEventPacket.deserialize payload with
    | .ok p => [.inputEventReceived p]
    | .error _ => []
  | .videoFrame =>
    match VideoFramePacket.deserialize payload hd.flags with
    | .ok p => [.videoFrameReceived p]
    | .error _ => []
  | _ => []

set_option linter.unusedVariables false in
/-- Inner while-loop of the read task: while pending holds at least a header, parse it
(`Err(_) => break` leaves pending untouched and exits this loop only), wait until the
full packet is buffered, dispatch it, and drain the consumed bytes. -/
def drainPackets (pending : List Nat) : List ReadEvent × List Nat :=
  if h8 : 8 ≤ pending.length then
    match PacketHeader.deserialize pending with
    | .error _ => ([], pending)
    | .ok hd =>
      if pending.length < 8 + hd.length then ([], pending)
      else
        let payload := (pending.take (8 + hd.length)).drop 8
        let evs := dispatchPacket hd payload
        let r := drainPackets (pending.drop (8 + hd.length))
        (evs ++ r.1, r.2)
  else ([], pending)
termination_by pending.length
decreasing_by
  simp only [List.length_drop]
  omega

/-- One iteration of the read task's outer loop; `chunk` is the outcome of
reader.read (none = I/O error, some [] = 0 bytes meaning EOF, some c = c fresh bytes).
Returns the dispatched events, the new pending buffer, and whether the loop breaks
(the only way the read task ends and the session is torn down). -/
def readLoopIteration (pending : List Nat) (chunk : Option (List Nat)) :
    List ReadEvent × List Nat × Bool :=
  match chunk with
  | none => ([], pending, true)
  | some [] => ([], pending, true)
  | some c =>
    let r := drainPackets (pending ++ c)
    (r.1, r.2, false)

/-- C7 counterexample: one read delivers a header with invalid type byte 0xFF followed
by a complete valid InputEvent packet.  The claim predicts the read loop terminates
(log and close); instead the iteration does not break, dispatches nothing, and leaves
every byte — the bad header and the valid packet behind it — pending. -/
theorem unknown_type_closes_counterexample :
    readLoopIteration []
        (some ([0xFF, 0, 0, 0, 0, 0, 0, 0] ++ [3, 0, 0, 0, 0, 0, 0, 4, 0, 0xA5, 0, 0])) =
      ([], [0xFF, 0, 0, 0, 0, 0, 0, 0, 3, 0, 0, 0, 0, 0, 0, 4, 0, 0xA5, 0, 0],
        false) := by
  rw [show ([0xFF, 0, 0, 0, 0, 0, 0, 0] ++ [3, 0, 0, 0, 0, 0, 0, 4, 0, 0xA5, 0, 0] :
      List Nat) = [0xFF, 0, 0, 0, 0, 0, 0, 0, 3, 0, 0, 0, 0, 0, 0, 4, 0, 0xA5, 0, 0]
    from rfl]
  simp only [readLoopIteration, List.nil_append]
  rw [drainPackets]
  simp [PacketHeader.deserialize, PacketType.tryFrom]

/-- C7 amended: when the pending buffer begins with a header whose type byte is not one
of 0x01..0x05, the read task stops draining — it dispatches no packet and consumes no
byte — but the connection is not closed: the read iteration does not break, and the
read loop terminates only when the transport reports EOF or a read error. -/
theorem unknown_type_stalls_reader (buf : List Nat) (h8 : 8 ≤ buf.length)
    (hb : ¬(buf.getD 0 0 = 0x01 ∨ buf.getD 0 0 = 0x02 ∨ buf.getD 0 0 = 0x03 ∨
      buf.getD 0 0 = 0x04 ∨ buf.getD 0 0 = 0x05)) :
    drainPackets buf = ([], buf) ∧
    (∀ pending chunk, pending ++ chunk = buf → chunk ≠ [] →
      readLoopIteration pending (some chunk) = ([], buf, false)) ∧
    (∀ pending, readLoopIteration pending none = ([], pending, true)) ∧
    (∀ pending, readLoopIteration pending (some []) = ([], pending, true)) := by
  have herr : PacketHeader.deserialize buf =
      .error (.invalidPacketType (buf.getD 0 0)) := by
    simp only [PacketHeader.deserialize, PacketType.tryFrom]
    rw [if_neg (by omega)]
    rw [if_neg (fun h => hb (Or.inl h)),
      if_neg (fun h => hb (Or.inr (Or.inl h))),
      if_neg (fun h => hb (Or.inr (Or.inr (Or.inl h)))),
      if_neg (fun h => hb (Or.inr (Or.inr (Or.inr (Or.inl h))))),
      if_neg (fun h => hb (Or.inr (Or.inr (Or.inr (Or.inr h)))))]
  have hdrain : drainPackets buf = ([], buf) := by
    rw [drainPackets, dif_pos h8, herr]
  refine ⟨hdrain, ?_, fun pending => rfl, fun pending => rfl⟩
  intro pending chunk hcat hne
  cases chunk with
  | nil => exact absurd rfl hne
  | cons c cs =>
    simp only [readLoopIteration, hcat, hdrain]

theorem unknown_type_stalls_reader_witness :
    drainPackets [0xFF, 0, 0, 0, 0, 0, 0, 0] = ([], [0xFF, 0, 0, 0, 0, 0, 0, 0]) ∧
    readLoopIteration [0xFF] (some [0, 0, 0, 0, 0, 0, 0]) =
      ([], [0xFF, 0, 0, 0, 0, 0, 0, 0], false) ∧
    readLoopIteration [0xFF, 0, 0, 0, 0, 0, 0, 0] (some []) =
      ([], [0xFF, 0, 0, 0, 0, 0, 0, 0], true) :=
  ⟨(unknown_type_stalls_reader [0xFF, 0, 0, 0, 0, 0, 0, 0] (by decide) (by decide)).1,
    (unknown_type_stalls_reader [0xFF, 0, 0, 0, 0, 0, 0, 0] (by decide)
      (by decide)).2.1 [0xFF] [0, 0, 0, 0, 0, 0, 0] rfl (by decide),
    (unknown_type_stalls_reader [0xFF, 0, 0, 0, 0, 0, 0, 0] (by decide)
      (by decide)).2.2.2 [0xFF, 0, 0, 0, 0, 0, 0, 0]⟩

end Perun
